import Mathlib

/-!
Verification of the subnet allocation search in `internal/subnet/subnet.go`
(function `FromZones` and its helper `calculateSubnet`), together with the
block arithmetic it uses from the go-cidr library (`cidr.Subnet`,
`cidr.VerifyNoOverlap`, `net.IPNet.Contains`, `net.CIDRMask`).

IPv4 addresses are modelled as natural numbers below `2 ^ 32`; CIDR-string
parsing (`net.ParseCIDR`, an external collaborator in the design) is modelled
as already applied: inputs are the parsed, masked networks, and `parseCIDR4`
builds such a network from dotted-quad notation for concrete test inputs.
-/

set_option maxRecDepth 2000000

deriving instance DecidableEq for Except

namespace Subnet

/-- A parsed IPv4 network: `addr` is the 32-bit network address (host bits
zero for every value produced by parsing or by `subnet`), `maskLen` the CIDR
mask length.  This is Go's `*net.IPNet` restricted to IPv4. -/
structure IPNet where
  addr : Nat
  maskLen : Nat
deriving DecidableEq, Repr

/-- Go's `net.CIDRMask(m, 32)` as a 32-bit value: `m` leading one bits
followed by `32 - m` zero bits. -/
def maskBits (m : Nat) : Nat := (2 ^ m - 1) <<< (32 - m)

/-- Go's `net.IPNet.Contains`: mask the candidate address and compare with the
(already masked) network address. -/
def IPNet.contains (n : IPNet) (ip : Nat) : Bool :=
  ip &&& maskBits n.maskLen == n.addr

/-- First address of a block, per go-cidr's `AddressRange`: the network
address itself. -/
def firstIP (n : IPNet) : Nat := n.addr

/-- Last address of a block, per go-cidr's `AddressRange`: the network address
with all host bits set (`ip | ^mask`; the complement of `m` leading ones in 32
bits is `32 - m` trailing ones). -/
def lastIP (n : IPNet) : Nat := n.addr ||| (2 ^ (32 - n.maskLen) - 1)

/-- go-cidr's `VerifyNoOverlap subnets CIDRBlock`, which returns a `nil` error
(modelled as `true`) when every listed subnet has first and last address
inside `CIDRBlock` and no listed subnet contains the first or last address of
another listed subnet.  The double index loop with the `i == j` skip mirrors
the Go source. -/
def verifyNoOverlap (subnets : List IPNet) (block : IPNet) : Bool :=
  (List.range subnets.length).all fun i =>
    let s := subnets.getD i ⟨0, 0⟩
    (block.contains (firstIP s) && block.contains (lastIP s)) &&
      (List.range subnets.length).all fun j =>
        i == j ||
          !(s.contains (firstIP (subnets.getD j ⟨0, 0⟩)) ||
            s.contains (lastIP (subnets.getD j ⟨0, 0⟩)))

/-- The two errors go-cidr's `Subnet`/`SubnetBig` can produce.
`insufficientSpace` is the message "insufficient address space to extend
prefix of %d by %d"; `extensionTooNarrow` is the message "prefix extension of
%d does not accommodate a subnet numbered %d". -/
inductive SubnetErr where
  | insufficientSpace (parentLen newBits : Nat)
  | extensionTooNarrow (newBits num : Nat)
deriving DecidableEq, Repr

/-- `FromZones` tests `strings.HasPrefix(err.Error(), "prefix extension")`;
among the two go-cidr errors exactly the message of `extensionTooNarrow`
starts with those words. -/
def SubnetErr.isExtensionErr : SubnetErr → Bool
  | .insufficientSpace _ _ => false
  | .extensionTooNarrow _ _ => true

/-- go-cidr's `cidr.Subnet base newBits num` for IPv4: extend the mask by
`newBits` and insert `num` into the freed bit positions
(`insertNumIntoIP` ors `num <<< (32 - newPrefixLen)` into the address). -/
def subnet (base : IPNet) (newBits num : Nat) : Except SubnetErr IPNet :=
  let parentLen := base.maskLen
  let newPrefixLen := parentLen + newBits
  if 32 < newPrefixLen then
    .error (.insufficientSpace parentLen newBits)
  else if 2 ^ newBits - 1 < num then
    .error (.extensionTooNarrow newBits num)
  else
    .ok ⟨base.addr ||| num <<< (32 - newPrefixLen), newPrefixLen⟩

/-- Ceiling base-2 logarithm with structural fuel (so the kernel can evaluate
it); `clog2Fuel fuel n = ⌈log₂ n⌉` whenever `n ≤ fuel`. -/
def clog2Fuel : Nat → Nat → Nat
  | 0, _ => 0
  | fuel + 1, n => if n ≤ 1 then 0 else clog2Fuel fuel ((n + 1) / 2) + 1

/-- Ceiling base-2 logarithm, `clog2 n = ⌈log₂ n⌉` (and `0` for `n = 0`).
Models Go's `math.Ceil(math.Log2(float64(n)))`, which computes exactly this
integer for every attainable slice length (`math.Log2 0 = -Inf`, and
`math.Max(1.0, ·)` in the caller turns that into `1`, matching
`max 1 (clog2 0) = 1`). -/
def clog2 (n : Nat) : Nat := clog2Fuel n n

/-- `maxCIDRMask` from subnet.go: subnets with mask length at or above this
are too small to use. -/
def maxCIDRMask : Nat := 28

/-- `calculateSubnet` from subnet.go: divide `network` into at least
`numZones` equal subnetworks (extending the mask by
`max 1 ⌈log₂ numZones⌉` bits) and return child number `num`. -/
def calculateSubnet (network : IPNet) (numZones num : Nat) : Except SubnetErr IPNet :=
  subnet network (max 1 (clog2 numZones)) num

/-- `infrav1.SubnetSpec` restricted to the fields `FromZones` sets.
`cidrBlock` holds the network itself rather than Go's decimal string
rendering of it (the rendering is injective on parsed networks). -/
structure SubnetSpec where
  isPublic : Bool
  cidrBlock : IPNet
  availabilityZone : String
deriving DecidableEq, Repr

/-- `infrav1.Subnets`, the result list of `FromZones`. -/
abbrev Subnets := List SubnetSpec

/-- The errors `FromZones` can return once its inputs have parsed:
`invalidNetwork` is `errInvalidNetwork` ("Could not find a valid subnet
configuration"); `subnetErr e` is a raw error from `calculateSubnet`
returned unchanged to the caller. -/
inductive GoErr where
  | invalidNetwork
  | subnetErr (e : SubnetErr)
deriving DecidableEq, Repr

/-- Outcome of the per-zone loop body of `FromZones`: return from the whole
function, `continue Offsets`, or `continue Outer`. -/
inductive ZoneOutcome where
  | done (r : Except GoErr Subnets)
  | nextOffset
  | nextOuter
deriving DecidableEq

/-- Outcome of the labelled `Offsets` loop of `FromZones`: return from the
whole function or fall through to the next expansion factor. -/
inductive OffsetsOutcome where
  | done (r : Except GoErr Subnets)
  | nextOuter
deriving DecidableEq

/-- The `for k, zone := range zones` loop of `FromZones`.  `newNets` is the
offset-level list `existingNets ++ [publicSubnet]`.  In the Go source the
statement `newNets := append(newNets, private)` declares a fresh variable
scoped to one iteration of this loop (shadowing the offset-level slice, whose
length never changes), so each zone's `VerifyNoOverlap` call sees exactly the
offset-level list plus that zone's own private block — never the blocks of
earlier zones. -/
def zoneLoop (network publicSubnet : IPNet) (splitCount j : Nat)
    (newNets : List IPNet) (result : Subnets) (k : Nat) :
    List String → ZoneOutcome
  | [] => .done (.ok result)
  | zone :: rest =>
    match calculateSubnet publicSubnet splitCount k with
    | .error e => .done (.error (.subnetErr e))
    | .ok pub =>
      if maxCIDRMask ≤ pub.maskLen then .done (.error .invalidNetwork)
      else
        match calculateSubnet network splitCount (j + k + 1) with
        | .error e =>
          if e.isExtensionErr then .nextOuter
          else .done (.error (.subnetErr e))
        | .ok priv =>
          if verifyNoOverlap (newNets ++ [priv]) network then
            zoneLoop network publicSubnet splitCount j newNets
              (result ++ [⟨true, pub, zone⟩, ⟨false, priv, zone⟩]) (k + 1) rest
          else .nextOffset

/-- The labelled `Offsets` loop of `FromZones`
(`for j := 0; j < 50; j++`).  `count` is the number of offsets still to try;
the loop is entered with `j = 0, count = 50`, so `j + count = 50` and every
executed body has `j < 50`. -/
def offsetsLoop (existingNets : List IPNet) (network : IPNet) (splitCount : Nat)
    (zones : List String) : Nat → Nat → OffsetsOutcome
  | _, 0 => .nextOuter
  | j, count + 1 =>
    match calculateSubnet network splitCount j with
    | .error e =>
      if e.isExtensionErr then .nextOuter
      else .done (.error (.subnetErr e))
    | .ok publicSubnet =>
      if maxCIDRMask ≤ publicSubnet.maskLen then .done (.error .invalidNetwork)
      else
        let newNets := existingNets ++ [publicSubnet]
        if verifyNoOverlap newNets network then
          match zoneLoop network publicSubnet splitCount j newNets [] 0 zones with
          | .done r => .done r
          | .nextOffset => offsetsLoop existingNets network splitCount zones (j + 1) count
          | .nextOuter => .nextOuter
        else
          offsetsLoop existingNets network splitCount zones (j + 1) count

/-- The unbounded labelled `Outer` loop of `FromZones`
(`for i := 0; ; i++`), written with explicit fuel so it is a total function;
`none` means the fuel ran out, which never happens for the fuel used by
`FromZones` (see the termination theorems). -/
def fromZonesGo (existingNets : List IPNet) (network : IPNet) (numZones : Nat)
    (zones : List String) : Nat → Nat → Option (Except GoErr Subnets)
  | 0, _ => none
  | fuel + 1, i =>
    match offsetsLoop existingNets network (numZones + i) zones 0 50 with
    | .done r => some r
    | .nextOuter => fromZonesGo existingNets network numZones zones fuel (i + 1)

/-- Fuel sufficient for the `Outer` loop on every input: once
`numZones + i` exceeds `2 ^ 27` the split uses at least 28 new bits and the
`maxCIDRMask` (or address-space) check returns at offset 0. -/
def outerFuel : Nat := 2 ^ 27 + 2

/-- `FromZones existingSubnets networkCidr zones` from subnet.go, with the
CIDR parsing of `networkCidr` and of each entry of `existingSubnets` (an
external collaborator per the design) already applied to the inputs. -/
def FromZones (existingNets : List IPNet) (network : IPNet) (zones : List String) :
    Option (Except GoErr Subnets) :=
  fromZonesGo existingNets network zones.length zones outerFuel 0

/-- The 32-bit value of dotted-quad `a.b.c.d`. -/
def mkIPv4 (a b c d : Nat) : Nat := ((a * 256 + b) * 256 + c) * 256 + d

/-- `net.ParseCIDR` applied to "a.b.c.d/m": the network address with host
bits masked off, paired with the mask length. -/
def parseCIDR4 (a b c d m : Nat) : IPNet :=
  ⟨mkIPv4 a b c d &&& maskBits m, m⟩

/-- Well-formedness of a parsed network: mask length at most 32, address
below `2 ^ 32`, host bits zero.  Every network produced by `parseCIDR4` or by
a successful `subnet` call on a well-formed base satisfies this. -/
def IPNet.Wf (n : IPNet) : Prop :=
  n.maskLen ≤ 32 ∧ n.addr < 2 ^ 32 ∧ n.addr % 2 ^ (32 - n.maskLen) = 0

instance IPNet.wfDecidable (n : IPNet) : Decidable n.Wf :=
  inferInstanceAs (Decidable (n.maskLen ≤ 32 ∧ n.addr < 2 ^ 32 ∧
    n.addr % 2 ^ (32 - n.maskLen) = 0))

/-- Membership of an address in the range covered by a network. -/
def InBlock (n : IPNet) (x : Nat) : Prop :=
  n.addr ≤ x ∧ x < n.addr + 2 ^ (32 - n.maskLen)

/-- Two networks cover disjoint address ranges. -/
def BlocksDisjoint (p q : IPNet) : Prop :=
  ∀ x : Nat, InBlock p x → InBlock q x → False

/-- Instrumented replay of `zoneLoop` recording, for each zone the loop
reaches, the exact list of networks passed to that zone's `VerifyNoOverlap`
call (`cidr.VerifyNoOverlap(newNets, network)` inside the zone loop of the
Go source).  The control flow mirrors `zoneLoop`. -/
def zoneLoopChecks (network publicSubnet : IPNet) (splitCount j : Nat)
    (newNets : List IPNet) (k : Nat) : List String → List (List IPNet)
  | [] => []
  | _zone :: rest =>
    match calculateSubnet publicSubnet splitCount k with
    | .error _ => []
    | .ok pub =>
      if maxCIDRMask ≤ pub.maskLen then []
      else
        match calculateSubnet network splitCount (j + k + 1) with
        | .error _ => []
        | .ok priv =>
          (newNets ++ [priv]) ::
            (if verifyNoOverlap (newNets ++ [priv]) network then
              zoneLoopChecks network publicSubnet splitCount j newNets (k + 1) rest
            else [])

/-- Instrumented replay of the `Offsets` loop recording every list of
networks passed to `VerifyNoOverlap` during the offset search at one
expansion factor: each offset contributes its offset-level check of
`existingNets ++ [publicSubnet]` and, when that passes, the per-zone checks
of the attempt; a rejected attempt is followed by the next offset's checks,
which restart from `existingNets` plus the next candidate root. -/
def offsetsChecks (existingNets : List IPNet) (network : IPNet)
    (splitCount : Nat) (zones : List String) : Nat → Nat → List (List IPNet)
  | _, 0 => []
  | j, count + 1 =>
    match calculateSubnet network splitCount j with
    | .error _ => []
    | .ok publicSubnet =>
      if maxCIDRMask ≤ publicSubnet.maskLen then []
      else
        (existingNets ++ [publicSubnet]) ::
          (if verifyNoOverlap (existingNets ++ [publicSubnet]) network then
            zoneLoopChecks network publicSubnet splitCount j
                (existingNets ++ [publicSubnet]) 0 zones ++
              (match zoneLoop network publicSubnet splitCount j
                  (existingNets ++ [publicSubnet]) [] 0 zones with
                | .done _ => []
                | .nextOuter => []
                | .nextOffset =>
                  offsetsChecks existingNets network splitCount zones (j + 1) count)
          else offsetsChecks existingNets network splitCount zones (j + 1) count)

/-- The trace left by a successful run of `zoneLoop` from state
`(ns, k, zs)`: for each zone, the per-zone public block exists and passed the
mask check, the private block exists, and the per-zone overlap check (against
`ns` plus only that zone's private block) succeeded. -/
inductive ZL (network pub : IPNet) (sc j : Nat) (ns : List IPNet) :
    Nat → List String → Subnets → Prop where
  | nil (k : Nat) : ZL network pub sc j ns k [] []
  | cons (k : Nat) (z : String) (zs : List String) (pb pv : IPNet) (recs : Subnets)
      (hpb : calculateSubnet pub sc k = Except.ok pb)
      (hm : pb.maskLen < maxCIDRMask)
      (hpv : calculateSubnet network sc (j + k + 1) = Except.ok pv)
      (hv : verifyNoOverlap (ns ++ [pv]) network = true)
      (htail : ZL network pub sc j ns (k + 1) zs recs) :
      ZL network pub sc j ns k (z :: zs)
        (⟨true, pb, z⟩ :: ⟨false, pv, z⟩ :: recs)

/-! ### The ceiling logarithm agrees with Mathlib's `Nat.clog` -/

theorem clog2Fuel_eq_clog {fuel n : Nat} (h : n ≤ fuel) :
    clog2Fuel fuel n = Nat.clog 2 n := by
  induction fuel generalizing n with
  | zero =>
    interval_cases n
    simp [clog2Fuel]
  | succ fuel ih =>
    rw [clog2Fuel]
    by_cases h1 : n ≤ 1
    · interval_cases n <;> simp
    · push_neg at h1
      rw [if_neg (by omega), ih (show (n + 1) / 2 ≤ fuel by omega),
        Nat.clog_of_two_le (by norm_num) (show 2 ≤ n by omega)]
      norm_num

theorem clog2_eq_clog (n : Nat) : clog2 n = Nat.clog 2 n :=
  clog2Fuel_eq_clog le_rfl

theorem le_two_pow_clog2 (n : Nat) : n ≤ 2 ^ clog2 n := by
  rw [clog2_eq_clog]
  exact Nat.le_pow_clog (by norm_num) n

theorem clog2_le_of_le {n k : Nat} (h : n ≤ 2 ^ k) : clog2 n ≤ k := by
  rw [clog2_eq_clog]
  exact (Nat.le_pow_iff_clog_le (by norm_num)).mp h

theorem lt_clog2_of_lt {n k : Nat} (h : 2 ^ k < n) : k < clog2 n := by
  rw [clog2_eq_clog]
  exact (Nat.pow_lt_iff_lt_clog (by norm_num)).mp h

/-! ### Bit-level bridge lemmas: `&&&`, `|||`, `<<<` as interval arithmetic -/

theorem lor_eq_add {k a b : Nat} (ha : a % 2 ^ k = 0) (hb : b < 2 ^ k) :
    a ||| b = a + b := by
  obtain ⟨q, hq⟩ : 2 ^ k ∣ a := Nat.dvd_of_mod_eq_zero ha
  subst hq
  exact (Nat.mul_add_lt_is_or hb q).symm

theorem and_maskBits {x m : Nat} (hx : x < 2 ^ 32) (hm : m ≤ 32) :
    x &&& maskBits m = x / 2 ^ (32 - m) * 2 ^ (32 - m) := by
  have hrw : x / 2 ^ (32 - m) * 2 ^ (32 - m) = (x >>> (32 - m)) <<< (32 - m) := by
    rw [Nat.shiftRight_eq_div_pow, Nat.shiftLeft_eq]
  rw [hrw, maskBits]
  apply Nat.eq_of_testBit_eq
  intro j
  rw [Nat.testBit_and, Nat.testBit_shiftLeft, Nat.testBit_shiftLeft,
    Nat.testBit_two_pow_sub_one, Nat.testBit_shiftRight]
  rcases Nat.lt_or_ge j (32 - m) with hj | hj
  · simp [Nat.not_le_of_lt hj]
  · have hj' : 32 - m + (j - (32 - m)) = j := by omega
    rw [hj']
    rcases Nat.lt_or_ge (j - (32 - m)) m with hjm | hjm
    · simp [hj, hjm]
    · have h32 : 32 ≤ j := by omega
      have hbit : x.testBit j = false :=
        Nat.testBit_lt_two_pow
          (lt_of_lt_of_le hx (Nat.pow_le_pow_right (by norm_num) h32))
      simp [hbit]

theorem contains_iff {n : IPNet} {x : Nat} (hwf : n.Wf) (hx : x < 2 ^ 32) :
    n.contains x = true ↔ InBlock n x := by
  obtain ⟨hm, ha, hal⟩ := hwf
  rw [IPNet.contains, beq_iff_eq, and_maskBits hx hm, InBlock]
  have hpos : 0 < 2 ^ (32 - n.maskLen) := Nat.two_pow_pos _
  obtain ⟨t, ht⟩ : 2 ^ (32 - n.maskLen) ∣ n.addr := Nat.dvd_of_mod_eq_zero hal
  constructor
  · intro h
    have hdm := Nat.div_add_mod x (2 ^ (32 - n.maskLen))
    have hlt := Nat.mod_lt x hpos
    rw [Nat.mul_comm] at hdm
    omega
  · rintro ⟨h1, h2⟩
    have hxsplit : x = 2 ^ (32 - n.maskLen) * t + (x - n.addr) := by
      rw [← ht]; omega
    have hdlt : x - n.addr < 2 ^ (32 - n.maskLen) := by omega
    rw [hxsplit, Nat.mul_add_div hpos, Nat.div_eq_of_lt hdlt, Nat.add_zero,
      Nat.mul_comm]
    exact ht.symm

/-! ### Properties of `subnet` -/

theorem subnet_ok {base : IPNet} {bits num : Nat} {c : IPNet}
    (h : subnet base bits num = Except.ok c) :
    base.maskLen + bits ≤ 32 ∧ num ≤ 2 ^ bits - 1 ∧
      c.maskLen = base.maskLen + bits ∧
      c.addr = base.addr ||| num <<< (32 - (base.maskLen + bits)) := by
  simp only [subnet] at h
  split_ifs at h with h1 h2
  rw [Except.ok.injEq] at h
  cases h
  exact ⟨by omega, by omega, rfl, rfl⟩

theorem subnet_eq_ok {base : IPNet} {bits num : Nat}
    (h1 : base.maskLen + bits ≤ 32) (h2 : num ≤ 2 ^ bits - 1) :
    subnet base bits num =
      Except.ok ⟨base.addr ||| num <<< (32 - (base.maskLen + bits)), base.maskLen + bits⟩ := by
  simp only [subnet]
  rw [if_neg (by omega), if_neg (by omega)]

theorem subnet_addr {base : IPNet} {bits num : Nat} {c : IPNet}
    (hwf : base.Wf) (h : subnet base bits num = Except.ok c) :
    c.maskLen = base.maskLen + bits ∧
    c.addr = base.addr + num * 2 ^ (32 - (base.maskLen + bits)) := by
  obtain ⟨hm, ha, hal⟩ := hwf
  obtain ⟨h1, h2, hcm, hca⟩ := subnet_ok h
  refine ⟨hcm, ?_⟩
  rw [hca, Nat.shiftLeft_eq]
  have hnum : num < 2 ^ bits := by
    have := Nat.two_pow_pos bits
    omega
  have hble : num * 2 ^ (32 - (base.maskLen + bits)) < 2 ^ (32 - base.maskLen) := by
    calc num * 2 ^ (32 - (base.maskLen + bits))
        < 2 ^ bits * 2 ^ (32 - (base.maskLen + bits)) :=
          (Nat.mul_lt_mul_right (Nat.two_pow_pos _)).mpr hnum
      _ = 2 ^ (32 - base.maskLen) := by
          rw [← Nat.pow_add]
          congr 1
          omega
  exact lor_eq_add hal hble

theorem wf_addr_add_le {n : IPNet} (hwf : n.Wf) :
    n.addr + 2 ^ (32 - n.maskLen) ≤ 2 ^ 32 := by
  obtain ⟨hm, ha, hal⟩ := hwf
  obtain ⟨t, ht⟩ : 2 ^ (32 - n.maskLen) ∣ n.addr := Nat.dvd_of_mod_eq_zero hal
  obtain ⟨T, hT⟩ : (2 : Nat) ^ (32 - n.maskLen) ∣ 2 ^ 32 := pow_dvd_pow 2 (by omega)
  have hpos : 0 < 2 ^ (32 - n.maskLen) := Nat.two_pow_pos _
  have htT : t < T := by
    by_contra hc
    push_neg at hc
    have hmul : 2 ^ (32 - n.maskLen) * T ≤ 2 ^ (32 - n.maskLen) * t :=
      mul_le_mul_left' hc _
    omega
  have hsucc : 2 ^ (32 - n.maskLen) * (t + 1) ≤ 2 ^ (32 - n.maskLen) * T :=
    mul_le_mul_left' (by omega) _
  have hsplit : 2 ^ (32 - n.maskLen) * (t + 1) =
      2 ^ (32 - n.maskLen) * t + 2 ^ (32 - n.maskLen) := by ring
  omega

theorem subnet_sub {base : IPNet} {bits num : Nat} {c : IPNet}
    (hwf : base.Wf) (h : subnet base bits num = Except.ok c) :
    base.addr ≤ c.addr ∧
      c.addr + 2 ^ (32 - c.maskLen) ≤ base.addr + 2 ^ (32 - base.maskLen) := by
  obtain ⟨hcm, hca⟩ := subnet_addr hwf h
  obtain ⟨h1, h2, _, _⟩ := subnet_ok h
  have hnum : num < 2 ^ bits := by
    have := Nat.two_pow_pos bits
    omega
  have haux : 2 ^ bits * 2 ^ (32 - (base.maskLen + bits)) = 2 ^ (32 - base.maskLen) := by
    rw [← Nat.pow_add]
    congr 1
    omega
  have hle : (num + 1) * 2 ^ (32 - (base.maskLen + bits)) ≤
      2 ^ bits * 2 ^ (32 - (base.maskLen + bits)) :=
    mul_le_mul_right' (by omega) _
  have hdist : (num + 1) * 2 ^ (32 - (base.maskLen + bits)) =
      num * 2 ^ (32 - (base.maskLen + bits)) + 2 ^ (32 - (base.maskLen + bits)) := by ring
  constructor
  · omega
  · rw [hca, hcm]
    omega

theorem subnet_wf {base : IPNet} {bits num : Nat} {c : IPNet}
    (hwf : base.Wf) (h : subnet base bits num = Except.ok c) : c.Wf := by
  obtain ⟨hcm, hca⟩ := subnet_addr hwf h
  obtain ⟨h1, h2, _, _⟩ := subnet_ok h
  have hsub := subnet_sub hwf h
  have hfit := wf_addr_add_le hwf
  have hpos := Nat.two_pow_pos (32 - c.maskLen)
  refine ⟨by omega, by omega, ?_⟩
  have hd1 : 2 ^ (32 - (base.maskLen + bits)) ∣ base.addr :=
    dvd_trans (pow_dvd_pow 2 (by omega)) (Nat.dvd_of_mod_eq_zero hwf.2.2)
  have hd2 : 2 ^ (32 - c.maskLen) ∣ c.addr := by
    rw [hca, hcm]
    exact dvd_add hd1 (dvd_mul_left _ num)
  exact Nat.mod_eq_zero_of_dvd hd2

theorem subnet_siblings_disjoint {base : IPNet} {bits n1 n2 : Nat} {c1 c2 : IPNet}
    (hwf : base.Wf) (h1 : subnet base bits n1 = Except.ok c1)
    (h2 : subnet base bits n2 = Except.ok c2) (hne : n1 ≠ n2) :
    BlocksDisjoint c1 c2 := by
  obtain ⟨hm1, ha1⟩ := subnet_addr hwf h1
  obtain ⟨hm2, ha2⟩ := subnet_addr hwf h2
  intro x hx1 hx2
  rw [InBlock, hm1, ha1] at hx1
  rw [InBlock, hm2, ha2] at hx2
  rcases Nat.lt_or_ge n1 n2 with hlt | hge
  · have hle : (n1 + 1) * 2 ^ (32 - (base.maskLen + bits)) ≤
        n2 * 2 ^ (32 - (base.maskLen + bits)) := mul_le_mul_right' (by omega) _
    have hdist : (n1 + 1) * 2 ^ (32 - (base.maskLen + bits)) =
        n1 * 2 ^ (32 - (base.maskLen + bits)) + 2 ^ (32 - (base.maskLen + bits)) := by ring
    omega
  · have hlt : n2 < n1 := by omega
    have hle : (n2 + 1) * 2 ^ (32 - (base.maskLen + bits)) ≤
        n1 * 2 ^ (32 - (base.maskLen + bits)) := mul_le_mul_right' (by omega) _
    have hdist : (n2 + 1) * 2 ^ (32 - (base.maskLen + bits)) =
        n2 * 2 ^ (32 - (base.maskLen + bits)) + 2 ^ (32 - (base.maskLen + bits)) := by ring
    omega

theorem disjoint_of_sub_left {c p q : IPNet}
    (hsub : p.addr ≤ c.addr ∧
      c.addr + 2 ^ (32 - c.maskLen) ≤ p.addr + 2 ^ (32 - p.maskLen))
    (hd : BlocksDisjoint p q) : BlocksDisjoint c q := by
  intro x hx1 hx2
  rw [InBlock] at hx1
  exact hd x ⟨by omega, by omega⟩ hx2

theorem blocksDisjoint_symm {p q : IPNet} (h : BlocksDisjoint p q) :
    BlocksDisjoint q p := fun x hq hp => h x hp hq

/-! ### Overlap of aligned blocks is containment of a base address -/

theorem inblock_base_of_overlap {p q : IPNet} (hp : p.Wf) (hq : q.Wf)
    (hle : 2 ^ (32 - p.maskLen) ≤ 2 ^ (32 - q.maskLen))
    {x : Nat} (hxp : InBlock p x) (hxq : InBlock q x) : InBlock q p.addr := by
  obtain ⟨hpm, hpa, hpal⟩ := hp
  obtain ⟨hqm, hqa, hqal⟩ := hq
  obtain ⟨hxp1, hxp2⟩ := hxp
  obtain ⟨hxq1, hxq2⟩ := hxq
  refine ⟨?_, by omega⟩
  by_contra hc
  push_neg at hc
  have hSdvdT : 2 ^ (32 - p.maskLen) ∣ 2 ^ (32 - q.maskLen) :=
    pow_dvd_pow 2 ((Nat.pow_le_pow_iff_right (by norm_num)).mp hle)
  obtain ⟨tp, htp⟩ : 2 ^ (32 - p.maskLen) ∣ p.addr := Nat.dvd_of_mod_eq_zero hpal
  obtain ⟨tq, htq⟩ : 2 ^ (32 - p.maskLen) ∣ q.addr :=
    dvd_trans hSdvdT (Nat.dvd_of_mod_eq_zero hqal)
  have h1 : 2 ^ (32 - p.maskLen) * tp < 2 ^ (32 - p.maskLen) * tq := by omega
  have h2 : 2 ^ (32 - p.maskLen) * tq < 2 ^ (32 - p.maskLen) * (tp + 1) := by
    have : 2 ^ (32 - p.maskLen) * (tp + 1) =
        2 ^ (32 - p.maskLen) * tp + 2 ^ (32 - p.maskLen) := by ring
    omega
  have ht1 : tp < tq := Nat.lt_of_mul_lt_mul_left h1
  have ht2 : tq < tp + 1 := Nat.lt_of_mul_lt_mul_left h2
  omega

theorem contains_self {n : IPNet} (hwf : n.Wf) : n.contains n.addr = true :=
  (contains_iff hwf hwf.2.1).mpr
    ⟨le_rfl, by have := Nat.two_pow_pos (32 - n.maskLen); omega⟩

theorem lastIP_eq {n : IPNet} (hwf : n.Wf) :
    lastIP n = n.addr + (2 ^ (32 - n.maskLen) - 1) := by
  rw [lastIP]
  exact lor_eq_add hwf.2.2 (by have := Nat.two_pow_pos (32 - n.maskLen); omega)

theorem contains_firstIP_lastIP {net c : IPNet} (hnet : net.Wf) (hc : c.Wf)
    (hsub : net.addr ≤ c.addr ∧
      c.addr + 2 ^ (32 - c.maskLen) ≤ net.addr + 2 ^ (32 - net.maskLen)) :
    net.contains (firstIP c) = true ∧ net.contains (lastIP c) = true := by
  have hcpos := Nat.two_pow_pos (32 - c.maskLen)
  have h1 : InBlock net c.addr := ⟨hsub.1, by omega⟩
  have h2 : InBlock net (lastIP c) := by
    rw [lastIP_eq hc]
    exact ⟨by omega, by omega⟩
  have hx1 : c.addr < 2 ^ 32 := hc.2.1
  have hx2 : lastIP c < 2 ^ 32 := by
    rw [lastIP_eq hc]
    have := wf_addr_add_le hc
    omega
  exact ⟨(contains_iff hnet hx1).mpr h1, (contains_iff hnet hx2).mpr h2⟩

theorem disjoint_of_not_contains {p q : IPNet} (hp : p.Wf) (hq : q.Wf)
    (hpq : q.contains p.addr = false) (hqp : p.contains q.addr = false) :
    BlocksDisjoint p q := by
  intro x hxp hxq
  rcases le_total (2 ^ (32 - p.maskLen)) (2 ^ (32 - q.maskLen)) with hle | hle
  · have hmem := inblock_base_of_overlap hp hq hle hxp hxq
    rw [← contains_iff hq hp.2.1] at hmem
    rw [hpq] at hmem
    cases hmem
  · have hmem := inblock_base_of_overlap hq hp hle hxq hxp
    rw [← contains_iff hp hq.2.1] at hmem
    rw [hqp] at hmem
    cases hmem

/-! ### Consequences of a successful `verifyNoOverlap` -/

theorem getD_mem_of_lt {L : List IPNet} {i : Nat} (h : i < L.length) (d : IPNet) :
    L.getD i d ∈ L := by
  rw [List.getD_eq_getElem?_getD, List.getElem?_eq_getElem h, Option.getD_some]
  exact List.getElem_mem h

theorem verify_not_contains {L : List IPNet} {net : IPNet}
    (h : verifyNoOverlap L net = true) {i j : Nat}
    (hi : i < L.length) (hj : j < L.length) (hij : i ≠ j) :
    (L.getD i ⟨0, 0⟩).contains (firstIP (L.getD j ⟨0, 0⟩)) = false ∧
      (L.getD i ⟨0, 0⟩).contains (lastIP (L.getD j ⟨0, 0⟩)) = false := by
  rw [verifyNoOverlap, List.all_eq_true] at h
  have hi' := h i (List.mem_range.mpr hi)
  simp only [Bool.and_eq_true] at hi'
  obtain ⟨-, hall⟩ := hi'
  rw [List.all_eq_true] at hall
  have hj' := hall j (List.mem_range.mpr hj)
  simp only [Bool.or_eq_true, beq_iff_eq, Bool.not_eq_true',
    Bool.or_eq_false_iff] at hj'
  rcases hj' with h1 | h2
  · exact absurd h1 hij
  · exact h2

theorem verify_contained {L : List IPNet} {net : IPNet}
    (h : verifyNoOverlap L net = true) {i : Nat} (hi : i < L.length) :
    net.contains (firstIP (L.getD i ⟨0, 0⟩)) = true ∧
      net.contains (lastIP (L.getD i ⟨0, 0⟩)) = true := by
  rw [verifyNoOverlap, List.all_eq_true] at h
  have hi' := h i (List.mem_range.mpr hi)
  simp only [Bool.and_eq_true] at hi'
  exact hi'.1

theorem verify_disjoint_getD {L : List IPNet} {net : IPNet}
    (h : verifyNoOverlap L net = true) (hwf : ∀ n ∈ L, n.Wf)
    {i j : Nat} (hi : i < L.length) (hj : j < L.length) (hij : i ≠ j) :
    BlocksDisjoint (L.getD i ⟨0, 0⟩) (L.getD j ⟨0, 0⟩) := by
  have h1 := (verify_not_contains h hi hj hij).1
  have h2 := (verify_not_contains h hj hi (Ne.symm hij)).1
  have hwi : (L.getD i ⟨0, 0⟩).Wf := hwf _ (getD_mem_of_lt hi _)
  have hwj : (L.getD j ⟨0, 0⟩).Wf := hwf _ (getD_mem_of_lt hj _)
  exact disjoint_of_not_contains hwi hwj h2 h1

theorem verify_disjoint_mem {L : List IPNet} {net : IPNet}
    (h : verifyNoOverlap L net = true) (hwf : ∀ n ∈ L, n.Wf)
    {p q : IPNet} (hp : p ∈ L) (hq : q ∈ L) (hne : p ≠ q) :
    BlocksDisjoint p q := by
  obtain ⟨i, hpi⟩ := List.mem_iff_getElem?.mp hp
  obtain ⟨j, hqj⟩ := List.mem_iff_getElem?.mp hq
  have hi : i < L.length := by
    rcases List.getElem?_eq_some_iff.mp hpi with ⟨hlt, -⟩
    exact hlt
  have hj : j < L.length := by
    rcases List.getElem?_eq_some_iff.mp hqj with ⟨hlt, -⟩
    exact hlt
  have hij : i ≠ j := by
    intro hc
    rw [hc, hqj] at hpi
    exact hne (Option.some.inj hpi).symm
  have hthis := verify_disjoint_getD h hwf hi hj hij
  have hgp : L.getD i ⟨0, 0⟩ = p := by
    rw [List.getD_eq_getElem?_getD, hpi, Option.getD_some]
  have hgq : L.getD j ⟨0, 0⟩ = q := by
    rw [List.getD_eq_getElem?_getD, hqj, Option.getD_some]
  rwa [hgp, hgq] at hthis

/-- A block is never disjoint from itself: its base address is in it. -/
theorem not_disjoint_self {p : IPNet} (h : BlocksDisjoint p p) : False := by
  have hpos := Nat.two_pow_pos (32 - p.maskLen)
  exact h p.addr ⟨le_rfl, by omega⟩ ⟨le_rfl, by omega⟩

/-! ### Traces of successful loop runs -/

theorem zoneLoop_ok {network pub : IPNet} {sc j : Nat} {ns : List IPNet}
    {res : Subnets} {zs : List String} :
    ∀ {rs : Subnets} {k : Nat},
    zoneLoop network pub sc j ns rs k zs = ZoneOutcome.done (Except.ok res) →
    ∃ recs, res = rs ++ recs ∧ ZL network pub sc j ns k zs recs := by
  induction zs with
  | nil =>
    intro rs k h
    simp only [zoneLoop, ZoneOutcome.done.injEq, Except.ok.injEq] at h
    exact ⟨[], by simp [h], ZL.nil k⟩
  | cons z rest ih =>
    intro rs k h
    simp only [zoneLoop] at h
    cases hpb : calculateSubnet pub sc k with
    | error e =>
      rw [hpb] at h
      simp at h
    | ok pb =>
      rw [hpb] at h
      dsimp only [] at h
      by_cases hm : maxCIDRMask ≤ pb.maskLen
      · rw [if_pos hm] at h
        simp at h
      · rw [if_neg hm] at h
        cases hpv : calculateSubnet network sc (j + k + 1) with
        | error e =>
          rw [hpv] at h
          dsimp only [] at h
          split_ifs at h
          all_goals simp_all
        | ok pv =>
          rw [hpv] at h
          dsimp only [] at h
          by_cases hv : verifyNoOverlap (ns ++ [pv]) network = true
          · rw [if_pos hv] at h
            obtain ⟨recs, hres, hzl⟩ := ih h
            refine ⟨⟨true, pb, z⟩ :: ⟨false, pv, z⟩ :: recs, ?_, ?_⟩
            · rw [hres]
              simp
            · exact ZL.cons k z rest pb pv recs hpb (by omega) hpv hv hzl
          · rw [if_neg hv] at h
            simp at h

theorem offsetsLoop_ok {ex : List IPNet} {network : IPNet} {sc : Nat}
    {zs : List String} {res : Subnets} :
    ∀ {j count : Nat},
    offsetsLoop ex network sc zs j count = OffsetsOutcome.done (Except.ok res) →
    ∃ jv pub, calculateSubnet network sc jv = Except.ok pub ∧
      pub.maskLen < maxCIDRMask ∧
      verifyNoOverlap (ex ++ [pub]) network = true ∧
      zoneLoop network pub sc jv (ex ++ [pub]) [] 0 zs =
        ZoneOutcome.done (Except.ok res) := by
  intro j count
  induction count generalizing j with
  | zero =>
    intro h
    simp [offsetsLoop] at h
  | succ count ih =>
    intro h
    simp only [offsetsLoop] at h
    cases hc : calculateSubnet network sc j with
    | error e =>
      rw [hc] at h
      dsimp only [] at h
      split_ifs at h
      all_goals simp_all
    | ok pub =>
      rw [hc] at h
      dsimp only [] at h
      by_cases hm : maxCIDRMask ≤ pub.maskLen
      · rw [if_pos hm] at h
        simp at h
      · rw [if_neg hm] at h
        by_cases hv : verifyNoOverlap (ex ++ [pub]) network = true
        · rw [if_pos hv] at h
          cases hz : zoneLoop network pub sc j (ex ++ [pub]) [] 0 zs with
          | done r =>
            rw [hz] at h
            dsimp only [] at h
            simp only [OffsetsOutcome.done.injEq] at h
            exact ⟨j, pub, hc, by omega, hv, by rw [hz, h]⟩
          | nextOffset =>
            rw [hz] at h
            exact ih h
          | nextOuter =>
            rw [hz] at h
            simp at h
        · rw [if_neg hv] at h
          exact ih h

theorem fromZonesGo_ok {ex : List IPNet} {network : IPNet} {numZones : Nat}
    {zs : List String} {res : Except GoErr Subnets} :
    ∀ {fuel i : Nat},
    fromZonesGo ex network numZones zs fuel i = some res →
    ∃ iv, offsetsLoop ex network (numZones + iv) zs 0 50 =
      OffsetsOutcome.done res := by
  intro fuel
  induction fuel with
  | zero =>
    intro i h
    simp [fromZonesGo] at h
  | succ fuel ih =>
    intro i h
    simp only [fromZonesGo] at h
    cases ho : offsetsLoop ex network (numZones + i) zs 0 50 with
    | done r =>
      rw [ho] at h
      simp only [Option.some.injEq] at h
      exact ⟨i, by rw [ho, h]⟩
    | nextOuter =>
      rw [ho] at h
      exact ih h

/-! ### Facts extracted from a `ZL` trace -/

theorem sc_le_two_pow_bits (sc : Nat) : sc ≤ 2 ^ max 1 (clog2 sc) :=
  le_trans (le_two_pow_clog2 sc)
    (Nat.pow_le_pow_right (by norm_num) (le_max_right 1 _))

theorem zl_length {network pub : IPNet} {sc j : Nat} {ns : List IPNet}
    {k : Nat} {zs : List String} {recs : Subnets}
    (h : ZL network pub sc j ns k zs recs) : recs.length = 2 * zs.length := by
  induction h with
  | nil => simp
  | cons k z zs pb pv recs hpb hm hpv hv htail ih =>
    simp only [List.length_cons, ih]
    ring

theorem zl_zone_mem {network pub : IPNet} {sc j : Nat} {ns : List IPNet}
    {k : Nat} {zs : List String} {recs : Subnets}
    (h : ZL network pub sc j ns k zs recs) :
    ∀ r ∈ recs, r.availabilityZone ∈ zs := by
  induction h with
  | nil => simp
  | cons k z zs pb pv recs hpb hm hpv hv htail ih =>
    intro r hr
    rcases List.mem_cons.mp hr with rfl | hr
    · simp
    rcases List.mem_cons.mp hr with rfl | hr
    · simp
    · simp [ih r hr]

theorem zl_index {network pub : IPNet} {sc j : Nat} {ns : List IPNet}
    {k : Nat} {zs : List String} {recs : Subnets}
    (h : ZL network pub sc j ns k zs recs) :
    ∀ {t : Nat}, t < zs.length →
    ∃ pb pv : IPNet,
      recs.getD (2 * t) ⟨true, ⟨0, 0⟩, ""⟩ = ⟨true, pb, zs.getD t ""⟩ ∧
      recs.getD (2 * t + 1) ⟨true, ⟨0, 0⟩, ""⟩ = ⟨false, pv, zs.getD t ""⟩ := by
  induction h with
  | nil =>
    intro t ht
    simp at ht
  | cons k z zs pb pv recs hpb hm hpv hv htail ih =>
    intro t ht
    cases t with
    | zero => exact ⟨pb, pv, rfl, rfl⟩
    | succ tp =>
      obtain ⟨pb', pv', h1, h2⟩ := ih (show tp < zs.length by simpa using ht)
      refine ⟨pb', pv', ?_, ?_⟩
      · rw [show 2 * (tp + 1) = 2 * tp + 1 + 1 by ring]
        simpa using h1
      · rw [show 2 * (tp + 1) + 1 = 2 * tp + 1 + 1 + 1 by ring]
        simpa using h2

theorem zl_filter_zero {network pub : IPNet} {sc j : Nat} {ns : List IPNet}
    {k : Nat} {zs : List String} {recs : Subnets}
    (h : ZL network pub sc j ns k zs recs) {z : String} (hz : z ∉ zs)
    (p : SubnetSpec → Bool) :
    (recs.filter fun r => p r && r.availabilityZone == z) = [] := by
  rw [List.filter_eq_nil_iff]
  intro r hr
  simp only [Bool.and_eq_true, beq_iff_eq, not_and]
  intro _ hc
  exact hz (hc ▸ zl_zone_mem h r hr)

theorem zl_filter_count {network pub : IPNet} {sc j : Nat} {ns : List IPNet}
    {k : Nat} {zs : List String} {recs : Subnets}
    (h : ZL network pub sc j ns k zs recs) (hnd : zs.Nodup) :
    ∀ z ∈ zs,
    (recs.filter fun r => r.isPublic && r.availabilityZone == z).length = 1 ∧
    (recs.filter fun r => !r.isPublic && r.availabilityZone == z).length = 1 := by
  induction h with
  | nil =>
    intro z hz
    simp at hz
  | cons k zh zs pb pv recs hpb hm hpv hv htail ih =>
    intro z hz
    rw [List.nodup_cons] at hnd
    rcases List.mem_cons.mp hz with rfl | hz'
    · have hz0 : (recs.filter fun r =>
          r.isPublic && r.availabilityZone == z) = [] :=
        zl_filter_zero htail hnd.1 _
      have hz1 : (recs.filter fun r =>
          (!r.isPublic) && r.availabilityZone == z) = [] :=
        zl_filter_zero htail hnd.1 _
      constructor
      · rw [List.filter_cons, List.filter_cons]
        simp [hz0]
      · rw [List.filter_cons, List.filter_cons]
        simp [hz1]
    · have hne : zh ≠ z := by
        intro hc
        exact hnd.1 (hc ▸ hz')
      obtain ⟨h1, h2⟩ := ih hnd.2 z hz'
      constructor
      · rw [List.filter_cons, List.filter_cons]
        simp [hne, h1]
      · rw [List.filter_cons, List.filter_cons]
        simp [hne, h2]

theorem zl_mask {network pub : IPNet} {sc j : Nat} {ns : List IPNet}
    {k : Nat} {zs : List String} {recs : Subnets}
    (h : ZL network pub sc j ns k zs recs)
    (hmask : network.maskLen + max 1 (clog2 sc) < maxCIDRMask) :
    ∀ r ∈ recs, r.cidrBlock.maskLen < maxCIDRMask := by
  induction h with
  | nil => simp
  | cons k z zs pb pv recs hpb hm hpv hv htail ih =>
    intro r hr
    rcases List.mem_cons.mp hr with rfl | hr
    · exact hm
    rcases List.mem_cons.mp hr with rfl | hr
    · obtain ⟨-, -, hlen, -⟩ := subnet_ok
        (show subnet network (max 1 (clog2 sc)) (j + k + 1) = Except.ok pv by
          rwa [calculateSubnet] at hpv)
      show pv.maskLen < maxCIDRMask
      omega
    · exact ih r hr

theorem zl_publics {network pub : IPNet} {sc j : Nat} {ns : List IPNet}
    {k : Nat} {zs : List String} {recs : Subnets}
    (h : ZL network pub sc j ns k zs recs) :
    ∀ r ∈ recs, r.isPublic = true →
      ∃ t, calculateSubnet pub sc t = Except.ok r.cidrBlock := by
  induction h with
  | nil => simp
  | cons k z zs pb pv recs hpb hm hpv hv htail ih =>
    intro r hr hp
    rcases List.mem_cons.mp hr with rfl | hr
    · exact ⟨k, hpb⟩
    rcases List.mem_cons.mp hr with rfl | hr
    · simp at hp
    · exact ih r hr hp

theorem zl_privates {network pub : IPNet} {sc j : Nat} {ns : List IPNet}
    {k : Nat} {zs : List String} {recs : Subnets}
    (h : ZL network pub sc j ns k zs recs) :
    ∀ r ∈ recs, r.isPublic = false →
      ∃ t, calculateSubnet network sc t = Except.ok r.cidrBlock ∧
        verifyNoOverlap (ns ++ [r.cidrBlock]) network = true := by
  induction h with
  | nil => simp
  | cons k z zs pb pv recs hpb hm hpv hv htail ih =>
    intro r hr hp
    rcases List.mem_cons.mp hr with rfl | hr
    · simp at hp
    rcases List.mem_cons.mp hr with rfl | hr
    · exact ⟨j + k + 1, hpv, hv⟩
    · exact ih r hr hp

/-! ### Termination of the outer loop -/

theorem offsetsLoop_done_of_big (ex : List IPNet) (network : IPNet)
    (zs : List String) {sc : Nat} (hbig : maxCIDRMask ≤ max 1 (clog2 sc)) :
    ∃ r, offsetsLoop ex network sc zs 0 50 = OffsetsOutcome.done r := by
  have key : ∀ count : Nat,
      ∃ r, offsetsLoop ex network sc zs 0 (count + 1) = OffsetsOutcome.done r := by
    intro count
    rw [offsetsLoop]
    simp only [calculateSubnet, subnet]
    by_cases hsp : 32 < network.maskLen + max 1 (clog2 sc)
    · rw [if_pos hsp]
      exact ⟨_, rfl⟩
    · rw [if_neg hsp, if_neg (show ¬2 ^ max 1 (clog2 sc) - 1 < 0 by omega)]
      dsimp only []
      rw [if_pos (show maxCIDRMask ≤ network.maskLen + max 1 (clog2 sc) by
        rw [maxCIDRMask] at hbig ⊢; omega)]
      exact ⟨_, rfl⟩
  exact key 49

theorem fromZonesGo_isSome (ex : List IPNet) (network : IPNet)
    (numZones : Nat) (zs : List String) :
    ∀ (fuel i : Nat), 2 ^ 27 + 1 ≤ numZones + i + fuel →
    (fromZonesGo ex network numZones zs (fuel + 1) i).isSome = true := by
  intro fuel
  induction fuel with
  | zero =>
    intro i hbig
    have hb : maxCIDRMask ≤ max 1 (clog2 (numZones + i)) := by
      have hc := lt_clog2_of_lt (show 2 ^ 27 < numZones + i by omega)
      have hm := le_max_right 1 (clog2 (numZones + i))
      rw [maxCIDRMask]
      omega
    obtain ⟨r, hr⟩ := offsetsLoop_done_of_big ex network zs hb
    rw [fromZonesGo, hr]
    rfl
  | succ fuel ih =>
    intro i hbig
    rw [fromZonesGo]
    cases ho : offsetsLoop ex network (numZones + i) zs 0 50 with
    | done r =>
      rfl
    | nextOuter =>
      exact ih (i + 1) (by omega)

/-! ### The errors that can escape the search -/

theorem calculateSubnet_extension_bound {base : IPNet} {n num b v : Nat}
    (h : calculateSubnet base n num =
      Except.error (SubnetErr.extensionTooNarrow b v)) :
    2 ^ max 1 (clog2 n) - 1 < num := by
  rw [calculateSubnet] at h
  simp only [subnet] at h
  split_ifs at h with h1 h2
  · simp at h
  · exact h2

theorem zoneLoop_error {network pub : IPNet} {sc j : Nat} {ns : List IPNet}
    {e : GoErr} {zs : List String} :
    ∀ {rs : Subnets} {k : Nat}, k + zs.length ≤ sc →
    zoneLoop network pub sc j ns rs k zs = ZoneOutcome.done (Except.error e) →
    e = GoErr.invalidNetwork ∨
      ∃ p b, e = GoErr.subnetErr (SubnetErr.insufficientSpace p b) := by
  induction zs with
  | nil =>
    intro rs k hk h
    simp [zoneLoop] at h
  | cons z rest ih =>
    intro rs k hk h
    simp only [zoneLoop] at h
    cases hpb : calculateSubnet pub sc k with
    | error er =>
      rw [hpb] at h
      dsimp only [] at h
      simp only [ZoneOutcome.done.injEq, Except.error.injEq] at h
      cases er with
      | insufficientSpace p b => exact Or.inr ⟨p, b, h.symm⟩
      | extensionTooNarrow b v =>
        exfalso
        have hbound := calculateSubnet_extension_bound hpb
        have hle := sc_le_two_pow_bits sc
        have hlen : 0 < (z :: rest).length := by simp
        simp only [List.length_cons] at hk
        omega
    | ok pb =>
      rw [hpb] at h
      dsimp only [] at h
      by_cases hm : maxCIDRMask ≤ pb.maskLen
      · rw [if_pos hm] at h
        simp only [ZoneOutcome.done.injEq, Except.error.injEq] at h
        exact Or.inl h.symm
      · rw [if_neg hm] at h
        cases hpv : calculateSubnet network sc (j + k + 1) with
        | error er =>
          rw [hpv] at h
          dsimp only [] at h
          by_cases hext : er.isExtensionErr = true
          · rw [if_pos hext] at h
            simp at h
          · rw [if_neg hext] at h
            simp only [ZoneOutcome.done.injEq, Except.error.injEq] at h
            cases er with
            | insufficientSpace p b => exact Or.inr ⟨p, b, h.symm⟩
            | extensionTooNarrow b v => simp [SubnetErr.isExtensionErr] at hext
        | ok pv =>
          rw [hpv] at h
          dsimp only [] at h
          by_cases hv : verifyNoOverlap (ns ++ [pv]) network = true
          · rw [if_pos hv] at h
            refine ih ?_ h
            simp only [List.length_cons] at hk
            omega
          · rw [if_neg hv] at h
            simp at h

theorem offsetsLoop_error {ex : List IPNet} {network : IPNet} {sc : Nat}
    {zs : List String} {e : GoErr} :
    ∀ {j count : Nat}, zs.length ≤ sc →
    offsetsLoop ex network sc zs j count = OffsetsOutcome.done (Except.error e) →
    e = GoErr.invalidNetwork ∨
      ∃ p b, e = GoErr.subnetErr (SubnetErr.insufficientSpace p b) := by
  intro j count
  induction count generalizing j with
  | zero =>
    intro hlen h
    simp [offsetsLoop] at h
  | succ count ih =>
    intro hlen h
    simp only [offsetsLoop] at h
    cases hc : calculateSubnet network sc j with
    | error er =>
      rw [hc] at h
      dsimp only [] at h
      by_cases hext : er.isExtensionErr = true
      · rw [if_pos hext] at h
        simp at h
      · rw [if_neg hext] at h
        simp only [OffsetsOutcome.done.injEq, Except.error.injEq] at h
        cases er with
        | insufficientSpace p b => exact Or.inr ⟨p, b, h.symm⟩
        | extensionTooNarrow b v => simp [SubnetErr.isExtensionErr] at hext
    | ok pub =>
      rw [hc] at h
      dsimp only [] at h
      by_cases hm : maxCIDRMask ≤ pub.maskLen
      · rw [if_pos hm] at h
        simp only [OffsetsOutcome.done.injEq, Except.error.injEq] at h
        exact Or.inl h.symm
      · rw [if_neg hm] at h
        by_cases hv : verifyNoOverlap (ex ++ [pub]) network = true
        · rw [if_pos hv] at h
          cases hz : zoneLoop network pub sc j (ex ++ [pub]) [] 0 zs with
          | done r =>
            rw [hz] at h
            dsimp only [] at h
            simp only [OffsetsOutcome.done.injEq] at h
            rw [h] at hz
            exact zoneLoop_error (by omega) hz
          | nextOffset =>
            rw [hz] at h
            exact ih hlen h
          | nextOuter =>
            rw [hz] at h
            simp at h
        · rw [if_neg hv] at h
          exact ih hlen h

/-! ### Assembling the no-overlap invariant -/

theorem verify_append_last_disjoint {L : List IPNet} {b net : IPNet}
    (h : verifyNoOverlap (L ++ [b]) net = true)
    (hwf : ∀ n ∈ L ++ [b], n.Wf) {m : IPNet} (hm : m ∈ L) :
    BlocksDisjoint m b := by
  obtain ⟨i, hmi⟩ := List.mem_iff_getElem?.mp hm
  have hi : i < L.length := by
    rcases List.getElem?_eq_some_iff.mp hmi with ⟨hlt, -⟩
    exact hlt
  have hlen : (L ++ [b]).length = L.length + 1 := by simp
  have hgi : (L ++ [b]).getD i ⟨0, 0⟩ = m := by
    rw [List.getD_eq_getElem?_getD, List.getElem?_append_left hi, hmi,
      Option.getD_some]
  have hgb : (L ++ [b]).getD L.length ⟨0, 0⟩ = b := by
    rw [List.getD_eq_getElem?_getD, List.getElem?_append_right le_rfl]
    simp
  have hd := verify_disjoint_getD h hwf (by omega) (by omega)
    (show i ≠ L.length by omega)
  rwa [hgi, hgb] at hd

/-- C1: on every input on which `FromZones` succeeds — the root network and
every existing reservation being well formed, and every existing reservation
lying inside the root network — any two distinct blocks drawn from the union
of the output blocks and the existing reservations have empty intersection. -/
theorem fromZones_no_overlap (ex : List IPNet) (network : IPNet)
    (zones : List String) (res : Subnets)
    (hnet : network.Wf) (hex : ∀ e ∈ ex, e.Wf)
    (_hin : ∀ e ∈ ex, network.addr ≤ e.addr ∧
      e.addr + 2 ^ (32 - e.maskLen) ≤ network.addr + 2 ^ (32 - network.maskLen))
    (h : FromZones ex network zones = some (Except.ok res)) :
    ∀ b1 ∈ res.map SubnetSpec.cidrBlock ++ ex,
    ∀ b2 ∈ res.map SubnetSpec.cidrBlock ++ ex,
    b1 ≠ b2 → ∀ x : Nat, ¬(InBlock b1 x ∧ InBlock b2 x) := by
  rw [FromZones] at h
  obtain ⟨iv, hoff⟩ := fromZonesGo_ok h
  obtain ⟨jv, pub, hc, hmsk, hv0, hz⟩ := offsetsLoop_ok hoff
  obtain ⟨recs, hres, hzl⟩ := zoneLoop_ok hz
  rw [List.nil_append] at hres
  subst hres
  rw [calculateSubnet] at hc
  have hpubwf : pub.Wf := subnet_wf hnet hc
  have hL0wf : ∀ n ∈ ex ++ [pub], n.Wf := by
    intro n hn
    rcases List.mem_append.mp hn with hn | hn
    · exact hex n hn
    · rw [List.mem_singleton] at hn
      subst hn
      exact hpubwf
  -- every block in the pool is a child of `pub`, an existing reservation, or
  -- a private block together with its passed overlap check
  have hcover : ∀ b ∈ res.map SubnetSpec.cidrBlock ++ ex,
      (∃ t, subnet pub (max 1 (clog2 (zones.length + iv))) t = Except.ok b) ∨
      b ∈ ex ∨
      (∃ t, subnet network (max 1 (clog2 (zones.length + iv))) t = Except.ok b ∧
        verifyNoOverlap ((ex ++ [pub]) ++ [b]) network = true) := by
    intro b hb
    rcases List.mem_append.mp hb with hb | hb
    · obtain ⟨r, hr, hrb⟩ := List.mem_map.mp hb
      cases hpq : r.isPublic with
      | false =>
        obtain ⟨t, ht, htv⟩ := zl_privates hzl r hr hpq
        rw [calculateSubnet] at ht
        exact Or.inr (Or.inr ⟨t, hrb ▸ ht, hrb ▸ htv⟩)
      | true =>
        obtain ⟨t, ht⟩ := zl_publics hzl r hr hpq
        rw [calculateSubnet] at ht
        exact Or.inl ⟨t, hrb ▸ ht⟩
    · exact Or.inr (Or.inl hb)
  -- disjointness of `pub` or an existing block from a private block,
  -- and of existing blocks pairwise
  have hmemL0 : ∀ m ∈ ex, m ∈ ex ++ [pub] := fun m hm =>
    List.mem_append.mpr (Or.inl hm)
  have hpubL0 : pub ∈ ex ++ [pub] :=
    List.mem_append.mpr (Or.inr (List.mem_singleton.mpr rfl))
  -- main pairwise case analysis
  have main : ∀ b1 ∈ res.map SubnetSpec.cidrBlock ++ ex,
      ∀ b2 ∈ res.map SubnetSpec.cidrBlock ++ ex,
      b1 ≠ b2 → BlocksDisjoint b1 b2 := by
    intro b1 hb1 b2 hb2 hne
    rcases hcover b1 hb1 with ⟨t1, ht1⟩ | hb1' | ⟨t1, ht1, hv1⟩
    · -- b1 is a child of pub
      have hsub1 := subnet_sub hpubwf ht1
      rcases hcover b2 hb2 with ⟨t2, ht2⟩ | hb2' | ⟨t2, ht2, hv2⟩
      · -- both children of pub: distinct child numbers
        have htne : t1 ≠ t2 := by
          intro hcq
          rw [hcq, ht2] at ht1
          exact hne (Except.ok.inj ht1).symm
        exact subnet_siblings_disjoint hpubwf ht1 ht2 htne
      · -- b2 existing: pub is disjoint from b2 (offset-level check)
        have hd : BlocksDisjoint b2 pub :=
          verify_append_last_disjoint hv0 hL0wf hb2'
        exact disjoint_of_sub_left hsub1 (blocksDisjoint_symm hd)
      · -- b2 private: pub is in the checked list of b2's overlap check
        have hwfL : ∀ n ∈ (ex ++ [pub]) ++ [b2], n.Wf := by
          intro n hn
          rcases List.mem_append.mp hn with hn | hn
          · exact hL0wf n hn
          · rw [List.mem_singleton] at hn
            subst hn
            exact subnet_wf hnet ht2
        have hd : BlocksDisjoint pub b2 :=
          verify_append_last_disjoint hv2 hwfL hpubL0
        exact disjoint_of_sub_left hsub1 hd
    · -- b1 existing
      rcases hcover b2 hb2 with ⟨t2, ht2⟩ | hb2' | ⟨t2, ht2, hv2⟩
      · have hsub2 := subnet_sub hpubwf ht2
        have hd : BlocksDisjoint b1 pub :=
          verify_append_last_disjoint hv0 hL0wf hb1'
        exact blocksDisjoint_symm (disjoint_of_sub_left hsub2 (blocksDisjoint_symm hd))
      · exact verify_disjoint_mem hv0 hL0wf (hmemL0 b1 hb1') (hmemL0 b2 hb2') hne
      · have hwfL : ∀ n ∈ (ex ++ [pub]) ++ [b2], n.Wf := by
          intro n hn
          rcases List.mem_append.mp hn with hn | hn
          · exact hL0wf n hn
          · rw [List.mem_singleton] at hn
            subst hn
            exact subnet_wf hnet ht2
        exact verify_append_last_disjoint hv2 hwfL (hmemL0 b1 hb1')
    · -- b1 private
      rcases hcover b2 hb2 with ⟨t2, ht2⟩ | hb2' | ⟨t2, ht2, hv2⟩
      · have hsub2 := subnet_sub hpubwf ht2
        have hwfL : ∀ n ∈ (ex ++ [pub]) ++ [b1], n.Wf := by
          intro n hn
          rcases List.mem_append.mp hn with hn | hn
          · exact hL0wf n hn
          · rw [List.mem_singleton] at hn
            subst hn
            exact subnet_wf hnet ht1
        have hd : BlocksDisjoint pub b1 :=
          verify_append_last_disjoint hv1 hwfL hpubL0
        exact blocksDisjoint_symm (disjoint_of_sub_left hsub2 hd)
      · have hwfL : ∀ n ∈ (ex ++ [pub]) ++ [b1], n.Wf := by
          intro n hn
          rcases List.mem_append.mp hn with hn | hn
          · exact hL0wf n hn
          · rw [List.mem_singleton] at hn
            subst hn
            exact subnet_wf hnet ht1
        exact blocksDisjoint_symm
          (verify_append_last_disjoint hv1 hwfL (hmemL0 b2 hb2'))
      · have htne : t1 ≠ t2 := by
          intro hcq
          rw [hcq, ht2] at ht1
          exact hne (Except.ok.inj ht1).symm
        exact subnet_siblings_disjoint hnet ht1 ht2 htne
  intro b1 hb1 b2 hb2 hne x hx
  exact main b1 hb1 b2 hb2 hne x hx.1 hx.2

/-- C2 (amended): on every input on which `FromZones` succeeds with
`N = |zones| ≥ 1`, the output has exactly `2 × N` records; for every zone
index `t` the record at position `2t` is the public record and the record at
position `2t + 1` the private record of `zones[t]`, so zone input order is
preserved and each zone's public record is immediately followed by its
private record; and when the zone identifiers are pairwise distinct there is
exactly one public and one private record tagged with each identifier. -/
theorem fromZones_output_shape (ex : List IPNet) (network : IPNet)
    (zones : List String) (res : Subnets)
    (_hN : 1 ≤ zones.length)
    (h : FromZones ex network zones = some (Except.ok res)) :
    res.length = 2 * zones.length ∧
    (∀ t : Nat, t < zones.length →
      ∃ pb pv : IPNet,
        res.getD (2 * t) ⟨true, ⟨0, 0⟩, ""⟩ = ⟨true, pb, zones.getD t ""⟩ ∧
        res.getD (2 * t + 1) ⟨true, ⟨0, 0⟩, ""⟩ = ⟨false, pv, zones.getD t ""⟩) ∧
    (zones.Nodup → ∀ z ∈ zones,
      (res.filter fun r => r.isPublic && r.availabilityZone == z).length = 1 ∧
      (res.filter fun r => !r.isPublic && r.availabilityZone == z).length = 1) := by
  rw [FromZones] at h
  obtain ⟨iv, hoff⟩ := fromZonesGo_ok h
  obtain ⟨jv, pub, hc, hm, hv, hz⟩ := offsetsLoop_ok hoff
  obtain ⟨recs, hres, hzl⟩ := zoneLoop_ok hz
  rw [List.nil_append] at hres
  subst hres
  exact ⟨zl_length hzl, fun t ht => zl_index hzl ht,
    fun hnd z hzm => zl_filter_count hzl hnd z hzm⟩

/-- C3: on every input on which `FromZones` succeeds, every output block —
public and private alike — has mask length strictly below `maxCIDRMask`
(28), even though the code checks no private block's mask directly: a
private block has the same mask length as the checked candidate public
root. -/
theorem fromZones_masks_below_max (ex : List IPNet) (network : IPNet)
    (zones : List String) (res : Subnets)
    (h : FromZones ex network zones = some (Except.ok res)) :
    ∀ r ∈ res, r.cidrBlock.maskLen < maxCIDRMask := by
  rw [FromZones] at h
  obtain ⟨iv, hoff⟩ := fromZonesGo_ok h
  obtain ⟨jv, pub, hc, hm, hv, hz⟩ := offsetsLoop_ok hoff
  obtain ⟨recs, hres, hzl⟩ := zoneLoop_ok hz
  rw [List.nil_append] at hres
  subst hres
  rw [calculateSubnet] at hc
  obtain ⟨-, -, hlen, -⟩ := subnet_ok hc
  exact zl_mask hzl (by rw [maxCIDRMask] at hm ⊢; omega)

/-- C4 (amended): once the inputs have parsed, every result of `FromZones`
is a success, the `AllocationExhausted` error (`errInvalidNetwork`), or the
subnet calculator's raw "insufficient address space" error (reachable when
the root's mask length plus the computed split width exceeds 32); the
"prefix extension" rejection and overlap rejections never escape to the
caller. -/
theorem fromZones_error_classification (ex : List IPNet) (network : IPNet)
    (zones : List String) (r : Except GoErr Subnets)
    (h : FromZones ex network zones = some r) :
    (∃ s, r = Except.ok s) ∨ r = Except.error GoErr.invalidNetwork ∨
      ∃ p b, r = Except.error (GoErr.subnetErr (SubnetErr.insufficientSpace p b)) := by
  cases r with
  | ok s => exact Or.inl ⟨s, rfl⟩
  | error e =>
    rw [FromZones] at h
    obtain ⟨iv, hoff⟩ := fromZonesGo_ok h
    rcases offsetsLoop_error (show zones.length ≤ zones.length + iv by omega)
        hoff with h1 | ⟨p, b, h2⟩
    · exact Or.inr (Or.inl (by rw [h1]))
    · exact Or.inr (Or.inr ⟨p, b, by rw [h2]⟩)

/-- C6 (amended): the offset loop is statically bounded (50 iterations per
expansion factor), but the expansion loop is written unbounded
(`for i := 0; ; i++`) and its index is not confined to any ceiling on the
order of 100; the search nevertheless always returns within `outerFuel`
(`2 ^ 27 + 2`) expansion steps, from any starting index. -/
theorem fromZonesGo_outer_bounded (ex : List IPNet) (network : IPNet)
    (zones : List String) (i : Nat) :
    (fromZonesGo ex network zones.length zones outerFuel i).isSome = true := by
  rw [outerFuel, show (2 : Nat) ^ 27 + 2 = 2 ^ 27 + 1 + 1 by norm_num]
  exact fromZonesGo_isSome ex network zones.length zones (2 ^ 27 + 1) i (by omega)

/-- C7: `FromZones` terminates on every input: it returns a result or an
error after finitely many attempts, with no external watchdog. -/
theorem fromZones_total (ex : List IPNet) (network : IPNet) (zones : List String) :
    ∃ r, FromZones ex network zones = some r := by
  have h := fromZonesGo_isSome ex network zones.length zones (2 ^ 27 + 1) 0 (by omega)
  rw [Option.isSome_iff_exists] at h
  obtain ⟨r, hr⟩ := h
  refine ⟨r, ?_⟩
  rw [FromZones, outerFuel, show (2 : Nat) ^ 27 + 2 = 2 ^ 27 + 1 + 1 by norm_num]
  exact hr

theorem singleton_verify {s net : IPNet}
    (h1 : net.contains (firstIP s) = true) (h2 : net.contains (lastIP s) = true) :
    verifyNoOverlap [s] net = true := by
  simp [verifyNoOverlap, h1, h2]

/-- C10: for an empty zone list, a well-formed root network of mask length
at most 26 and no existing reservations, `FromZones` succeeds with an empty
record list instead of rejecting the input. -/
theorem fromZones_empty_zones (network : IPNet) (hwf : network.Wf)
    (hm : network.maskLen ≤ 26) :
    FromZones [] network [] = some (Except.ok []) := by
  have hok : subnet network 1 0 = Except.ok
      ⟨network.addr ||| 0 <<< (32 - (network.maskLen + 1)), network.maskLen + 1⟩ :=
    subnet_eq_ok (by omega) (by norm_num)
  have hpwf := subnet_wf hwf hok
  have hpsub := subnet_sub hwf hok
  obtain ⟨hcf, hcl⟩ := contains_firstIP_lastIP hwf hpwf hpsub
  have hv := singleton_verify hcf hcl
  rw [FromZones, outerFuel, show (2 : Nat) ^ 27 + 2 = 2 ^ 27 + 1 + 1 by norm_num,
    fromZonesGo]
  rw [show (50 : Nat) = 49 + 1 by norm_num, offsetsLoop]
  rw [show List.length ([] : List String) = 0 from rfl, Nat.add_zero, calculateSubnet]
  rw [show max 1 (clog2 0) = 1 by decide]
  rw [hok]
  dsimp only []
  rw [if_neg (show ¬maxCIDRMask ≤ network.maskLen + 1 by rw [maxCIDRMask]; omega)]
  rw [List.nil_append, if_pos hv]
  rfl

/-- C5 (amended): for root block 10.0.0.0/27, every non-empty zone list of
at most 32 zones, and any existing reservations, `FromZones` returns the
`AllocationExhausted` error.  (For 33 or more zones the subnet calculator's
"insufficient address space" error is returned instead — see the
counterexample.) -/
theorem fromZones_root27_exhausted (ex : List IPNet) (zones : List String)
    (h1 : 1 ≤ zones.length) (h32 : zones.length ≤ 32) :
    FromZones ex (parseCIDR4 10 0 0 0 27) zones =
      some (Except.error GoErr.invalidNetwork) := by
  have hb5 : max 1 (clog2 zones.length) ≤ 5 := by
    have hcl : clog2 zones.length ≤ 5 := clog2_le_of_le
      (show zones.length ≤ 2 ^ 5 by
        have h25 : (2 : Nat) ^ 5 = 32 := by norm_num
        omega)
    exact Nat.max_le.mpr ⟨by norm_num, hcl⟩
  have hb1 : 1 ≤ max 1 (clog2 zones.length) := le_max_left _ _
  rw [FromZones, outerFuel, show (2 : Nat) ^ 27 + 2 = 2 ^ 27 + 1 + 1 by norm_num,
    fromZonesGo]
  rw [show (50 : Nat) = 49 + 1 by norm_num, offsetsLoop, Nat.add_zero,
    calculateSubnet]
  simp only [subnet]
  rw [show (parseCIDR4 10 0 0 0 27).maskLen = 27 from rfl]
  rw [if_neg (show ¬32 < 27 + max 1 (clog2 zones.length) by omega)]
  rw [if_neg (show ¬2 ^ max 1 (clog2 zones.length) - 1 < 0 by omega)]
  dsimp only []
  rw [if_pos (show maxCIDRMask ≤ 27 + max 1 (clog2 zones.length) by
    rw [maxCIDRMask]; omega)]

/-! ### Concrete runs -/

/-- C9: for root 10.0.0.0/16, the six us-east-1 zones and no existing
reservations, `FromZones` returns exactly the six public /22 blocks
10.0.0.0, 10.0.4.0, 10.0.8.0, 10.0.12.0, 10.0.16.0, 10.0.20.0 and the six
private /19 blocks 10.0.32.0, 10.0.64.0, 10.0.96.0, 10.0.128.0, 10.0.160.0,
10.0.192.0, one public/private pair per zone in input order. -/
theorem fromZones_six_zone_example :
    FromZones [] (parseCIDR4 10 0 0 0 16)
      ["us-east-1a", "us-east-1b", "us-east-1c",
       "us-east-1d", "us-east-1e", "us-east-1f"] =
    some (Except.ok
      [⟨true, parseCIDR4 10 0 0 0 22, "us-east-1a"⟩,
       ⟨false, parseCIDR4 10 0 32 0 19, "us-east-1a"⟩,
       ⟨true, parseCIDR4 10 0 4 0 22, "us-east-1b"⟩,
       ⟨false, parseCIDR4 10 0 64 0 19, "us-east-1b"⟩,
       ⟨true, parseCIDR4 10 0 8 0 22, "us-east-1c"⟩,
       ⟨false, parseCIDR4 10 0 96 0 19, "us-east-1c"⟩,
       ⟨true, parseCIDR4 10 0 12 0 22, "us-east-1d"⟩,
       ⟨false, parseCIDR4 10 0 128 0 19, "us-east-1d"⟩,
       ⟨true, parseCIDR4 10 0 16 0 22, "us-east-1e"⟩,
       ⟨false, parseCIDR4 10 0 160 0 19, "us-east-1e"⟩,
       ⟨true, parseCIDR4 10 0 20 0 22, "us-east-1f"⟩,
       ⟨false, parseCIDR4 10 0 192 0 19, "us-east-1f"⟩]) := by
  decide

/-- C2 counterexample: with the duplicated zone list `["a", "a"]`,
`FromZones` succeeds, but the output carries two records with
`isPublic = true` tagged `"a"`, so "exactly one public record per zone
identifier drawn from the input" fails as stated. -/
theorem fromZones_duplicate_zone_two_public_records :
    FromZones [] (parseCIDR4 10 0 0 0 16) ["a", "a"] =
      some (Except.ok
        [⟨true, parseCIDR4 10 0 0 0 20, "a"⟩,
         ⟨false, parseCIDR4 10 0 64 0 18, "a"⟩,
         ⟨true, parseCIDR4 10 0 16 0 20, "a"⟩,
         ⟨false, parseCIDR4 10 0 128 0 18, "a"⟩]) ∧
    (([⟨true, parseCIDR4 10 0 0 0 20, "a"⟩,
       ⟨false, parseCIDR4 10 0 64 0 18, "a"⟩,
       ⟨true, parseCIDR4 10 0 16 0 20, "a"⟩,
       ⟨false, parseCIDR4 10 0 128 0 18, "a"⟩] : Subnets).filter
        fun r => r.isPublic && r.availabilityZone == "a").length = 2 :=
  ⟨by decide, by decide⟩

/-- C4 counterexample: the parseable root 10.0.0.0/32 with one zone makes
`FromZones` return the subnet calculator's raw "insufficient address space"
error, not the `AllocationExhausted` error — so `AllocationExhausted` is not
the only error reachable from parseable inputs. -/
theorem fromZones_root32_raw_error :
    FromZones [] (parseCIDR4 10 0 0 0 32) ["a"] =
      some (Except.error
        (GoErr.subnetErr (SubnetErr.insufficientSpace 32 1))) ∧
    GoErr.subnetErr (SubnetErr.insufficientSpace 32 1) ≠ GoErr.invalidNetwork :=
  ⟨by decide, by decide⟩

/-- C5 counterexample: for root 10.0.0.0/27 and a zone list of length 33,
`FromZones` returns the raw "insufficient address space" error
(27 + ⌈log₂ 33⌉ = 33 > 32), not `AllocationExhausted` — refuting the claim
for all zone-list lengths `N ≥ 1`. -/
theorem fromZones_root27_33zones_raw_error :
    FromZones [] (parseCIDR4 10 0 0 0 27)
      ["z01", "z02", "z03", "z04", "z05", "z06", "z07", "z08", "z09", "z10",
       "z11", "z12", "z13", "z14", "z15", "z16", "z17", "z18", "z19", "z20",
       "z21", "z22", "z23", "z24", "z25", "z26", "z27", "z28", "z29", "z30",
       "z31", "z32", "z33"] =
      some (Except.error
        (GoErr.subnetErr (SubnetErr.insufficientSpace 27 6))) ∧
    GoErr.subnetErr (SubnetErr.insufficientSpace 27 6) ≠ GoErr.invalidNetwork :=
  ⟨by decide, by decide⟩

/-! ### Witnesses instantiating the hypothesis-bearing theorems -/

/-- Witness for C1 at root 10.0.0.0/16, one zone and two /24 reservations
(the repository's "one zone with existing subnets" test case): the output
public block and the first reservation share no address, checked here at the
address 10.0.0.5. -/
theorem fromZones_no_overlap_witness :
    ¬(InBlock (parseCIDR4 10 0 64 0 20) (mkIPv4 10 0 0 5) ∧
      InBlock (parseCIDR4 10 0 0 0 24) (mkIPv4 10 0 0 5)) :=
  fromZones_no_overlap [parseCIDR4 10 0 0 0 24, parseCIDR4 10 0 1 0 24]
    (parseCIDR4 10 0 0 0 16) ["us-east-5a"]
    [⟨true, parseCIDR4 10 0 64 0 20, "us-east-5a"⟩,
     ⟨false, parseCIDR4 10 0 128 0 18, "us-east-5a"⟩]
    (by decide) (by decide) (by decide) (by decide)
    (parseCIDR4 10 0 64 0 20) (by decide)
    (parseCIDR4 10 0 0 0 24) (by decide)
    (by decide) (mkIPv4 10 0 0 5)

/-- Witness for the amended C2 at root 10.0.0.0/16, one zone, no
reservations. -/
theorem fromZones_output_shape_witness :
    ([⟨true, parseCIDR4 10 0 0 0 18, "us-east-5a"⟩,
      ⟨false, parseCIDR4 10 0 128 0 17, "us-east-5a"⟩] : Subnets).length =
      2 * (["us-east-5a"] : List String).length ∧
    (∀ t : Nat, t < (["us-east-5a"] : List String).length →
      ∃ pb pv : IPNet,
        ([⟨true, parseCIDR4 10 0 0 0 18, "us-east-5a"⟩,
          ⟨false, parseCIDR4 10 0 128 0 17, "us-east-5a"⟩] : Subnets).getD
            (2 * t) ⟨true, ⟨0, 0⟩, ""⟩ =
          ⟨true, pb, (["us-east-5a"] : List String).getD t ""⟩ ∧
        ([⟨true, parseCIDR4 10 0 0 0 18, "us-east-5a"⟩,
          ⟨false, parseCIDR4 10 0 128 0 17, "us-east-5a"⟩] : Subnets).getD
            (2 * t + 1) ⟨true, ⟨0, 0⟩, ""⟩ =
          ⟨false, pv, (["us-east-5a"] : List String).getD t ""⟩) ∧
    ((["us-east-5a"] : List String).Nodup →
      ∀ z ∈ (["us-east-5a"] : List String),
      (([⟨true, parseCIDR4 10 0 0 0 18, "us-east-5a"⟩,
         ⟨false, parseCIDR4 10 0 128 0 17, "us-east-5a"⟩] : Subnets).filter
          fun r => r.isPublic && r.availabilityZone == z).length = 1 ∧
      (([⟨true, parseCIDR4 10 0 0 0 18, "us-east-5a"⟩,
         ⟨false, parseCIDR4 10 0 128 0 17, "us-east-5a"⟩] : Subnets).filter
          fun r => !r.isPublic && r.availabilityZone == z).length = 1) :=
  fromZones_output_shape [] (parseCIDR4 10 0 0 0 16) ["us-east-5a"]
    [⟨true, parseCIDR4 10 0 0 0 18, "us-east-5a"⟩,
     ⟨false, parseCIDR4 10 0 128 0 17, "us-east-5a"⟩]
    (by decide) (by decide)

/-- Witness for C3 at root 10.0.0.0/16, one zone, no reservations: the
private output block 10.0.128.0/17 respects the mask bound. -/
theorem fromZones_masks_below_max_witness :
    (parseCIDR4 10 0 128 0 17).maskLen < maxCIDRMask :=
  fromZones_masks_below_max [] (parseCIDR4 10 0 0 0 16) ["us-east-5a"]
    [⟨true, parseCIDR4 10 0 0 0 18, "us-east-5a"⟩,
     ⟨false, parseCIDR4 10 0 128 0 17, "us-east-5a"⟩] (by decide)
    ⟨false, parseCIDR4 10 0 128 0 17, "us-east-5a"⟩ (by decide)

/-- Witness for the amended C4 at root 10.0.0.0/27 and one zone, where the
result is the `AllocationExhausted` error. -/
theorem fromZones_error_classification_witness :
    (∃ s, (Except.error GoErr.invalidNetwork : Except GoErr Subnets) =
      Except.ok s) ∨
    (Except.error GoErr.invalidNetwork : Except GoErr Subnets) =
      Except.error GoErr.invalidNetwork ∨
    ∃ p b, (Except.error GoErr.invalidNetwork : Except GoErr Subnets) =
      Except.error (GoErr.subnetErr (SubnetErr.insufficientSpace p b)) :=
  fromZones_error_classification [] (parseCIDR4 10 0 0 0 27) ["a"]
    (Except.error GoErr.invalidNetwork) (by decide)

/-- Witness for the amended C5 with the repository's three-zone error test
case. -/
theorem fromZones_root27_exhausted_witness :
    FromZones [] (parseCIDR4 10 0 0 0 27)
      ["us-east-2a", "us-east-2b", "us-east-2c"] =
      some (Except.error GoErr.invalidNetwork) :=
  fromZones_root27_exhausted [] ["us-east-2a", "us-east-2b", "us-east-2c"]
    (by decide) (by decide)

/-- Witness for C10 at the root 10.0.0.0/24. -/
theorem fromZones_empty_zones_witness :
    FromZones [] (parseCIDR4 10 0 0 0 24) [] = some (Except.ok []) :=
  fromZones_empty_zones (parseCIDR4 10 0 0 0 24) (by decide) (by decide)

/-! ### What the overlap checks actually see (C8) -/

theorem zoneLoopChecks_shape {network pub : IPNet} {sc j : Nat}
    {ns : List IPNet} :
    ∀ {zs : List String} {k : Nat},
    ∀ c ∈ zoneLoopChecks network pub sc j ns k zs,
    ∃ t pv, calculateSubnet network sc (j + t + 1) = Except.ok pv ∧
      c = ns ++ [pv] ∧ k ≤ t := by
  intro zs
  induction zs with
  | nil =>
    intro k c hc
    simp [zoneLoopChecks] at hc
  | cons z rest ih =>
    intro k c hc
    simp only [zoneLoopChecks] at hc
    cases hpb : calculateSubnet pub sc k with
    | error e =>
      rw [hpb] at hc
      simp at hc
    | ok pb =>
      rw [hpb] at hc
      dsimp only [] at hc
      by_cases hm : maxCIDRMask ≤ pb.maskLen
      · rw [if_pos hm] at hc
        simp at hc
      · rw [if_neg hm] at hc
        cases hpv : calculateSubnet network sc (j + k + 1) with
        | error e =>
          rw [hpv] at hc
          simp at hc
        | ok pv =>
          rw [hpv] at hc
          dsimp only [] at hc
          rcases List.mem_cons.mp hc with rfl | hcr
          · exact ⟨k, pv, hpv, rfl, le_rfl⟩
          · by_cases hv : verifyNoOverlap (ns ++ [pv]) network = true
            · rw [if_pos hv] at hcr
              obtain ⟨t, pvt, h1, h2, h3⟩ := ih c hcr
              exact ⟨t, pvt, h1, h2, by omega⟩
            · rw [if_neg hv] at hcr
              simp at hcr

/-- C8 (amended): every list of networks handed to `VerifyNoOverlap` during
the offset search at one expansion factor is either the existing
reservations plus one candidate public root (the offset-level check), or the
existing reservations plus a candidate public root and the private block of
the single zone being committed.  The per-zone public blocks and the blocks
committed for earlier zones are never part of the checked list, and every
attempt's checks restart from the existing reservations plus its own fresh
candidate root, so no partial assignment is carried to the next offset. -/
theorem offsetsChecks_shape (ex : List IPNet) (network : IPNet) (sc : Nat)
    (zones : List String) :
    ∀ (j count : Nat), ∀ c ∈ offsetsChecks ex network sc zones j count,
    ∃ jv pub, calculateSubnet network sc jv = Except.ok pub ∧
      (c = ex ++ [pub] ∨
        ∃ t pv, calculateSubnet network sc (jv + t + 1) = Except.ok pv ∧
          c = ex ++ [pub, pv]) := by
  intro j count
  induction count generalizing j with
  | zero =>
    intro c hc
    simp [offsetsChecks] at hc
  | succ count ih =>
    intro c hc
    simp only [offsetsChecks] at hc
    cases hcs : calculateSubnet network sc j with
    | error e =>
      rw [hcs] at hc
      simp at hc
    | ok pub =>
      rw [hcs] at hc
      dsimp only [] at hc
      by_cases hm : maxCIDRMask ≤ pub.maskLen
      · rw [if_pos hm] at hc
        simp at hc
      · rw [if_neg hm] at hc
        rcases List.mem_cons.mp hc with rfl | hcr
        · exact ⟨j, pub, hcs, Or.inl rfl⟩
        · by_cases hv : verifyNoOverlap (ex ++ [pub]) network = true
          · rw [if_pos hv] at hcr
            rcases List.mem_append.mp hcr with hcz | hcn
            · obtain ⟨t, pv, h1, h2, -⟩ := zoneLoopChecks_shape c hcz
              refine ⟨j, pub, hcs, Or.inr ⟨t, pv, h1, ?_⟩⟩
              rw [h2, List.append_assoc]
              rfl
            · cases hz : zoneLoop network pub sc j (ex ++ [pub]) [] 0 zones with
              | done r =>
                rw [hz] at hcn
                simp at hcn
              | nextOffset =>
                rw [hz] at hcn
                exact ih (j + 1) c hcn
              | nextOuter =>
                rw [hz] at hcn
                simp at hcn
          · rw [if_neg hv] at hcr
            exact ih (j + 1) c hcr

/-- C8 counterexample: in the successful six-zone run (root 10.0.0.0/16,
candidate public root 10.0.0.0/19 = child 0 of the root at offset 0), zone 0
commits public block 10.0.0.0/22 and private block 10.0.32.0/19, yet the
network list passed to zone 1's overlap check is
[10.0.0.0/19, 10.0.64.0/19] — it contains neither of zone 0's committed
blocks, so the check is not made against every block already committed in
this attempt. -/
theorem zoneLoop_checks_omit_committed_blocks :
    calculateSubnet (parseCIDR4 10 0 0 0 16) 6 0 =
      Except.ok (parseCIDR4 10 0 0 0 19) ∧
    zoneLoop (parseCIDR4 10 0 0 0 16) (parseCIDR4 10 0 0 0 19) 6 0
      [parseCIDR4 10 0 0 0 19] [] 0
      ["us-east-1a", "us-east-1b", "us-east-1c",
       "us-east-1d", "us-east-1e", "us-east-1f"] =
      ZoneOutcome.done (Except.ok
        [⟨true, parseCIDR4 10 0 0 0 22, "us-east-1a"⟩,
         ⟨false, parseCIDR4 10 0 32 0 19, "us-east-1a"⟩,
         ⟨true, parseCIDR4 10 0 4 0 22, "us-east-1b"⟩,
         ⟨false, parseCIDR4 10 0 64 0 19, "us-east-1b"⟩,
         ⟨true, parseCIDR4 10 0 8 0 22, "us-east-1c"⟩,
         ⟨false, parseCIDR4 10 0 96 0 19, "us-east-1c"⟩,
         ⟨true, parseCIDR4 10 0 12 0 22, "us-east-1d"⟩,
         ⟨false, parseCIDR4 10 0 128 0 19, "us-east-1d"⟩,
         ⟨true, parseCIDR4 10 0 16 0 22, "us-east-1e"⟩,
         ⟨false, parseCIDR4 10 0 160 0 19, "us-east-1e"⟩,
         ⟨true, parseCIDR4 10 0 20 0 22, "us-east-1f"⟩,
         ⟨false, parseCIDR4 10 0 192 0 19, "us-east-1f"⟩]) ∧
    (zoneLoopChecks (parseCIDR4 10 0 0 0 16) (parseCIDR4 10 0 0 0 19) 6 0
        [parseCIDR4 10 0 0 0 19] 0
        ["us-east-1a", "us-east-1b", "us-east-1c",
         "us-east-1d", "us-east-1e", "us-east-1f"]).getD 1 [] =
      [parseCIDR4 10 0 0 0 19, parseCIDR4 10 0 64 0 19] ∧
    parseCIDR4 10 0 0 0 22 ∉ [parseCIDR4 10 0 0 0 19, parseCIDR4 10 0 64 0 19] ∧
    parseCIDR4 10 0 32 0 19 ∉ [parseCIDR4 10 0 0 0 19, parseCIDR4 10 0 64 0 19] :=
  ⟨by decide, by decide, by decide, by decide, by decide⟩

/-- Witness for the amended C8: the first per-zone check list of the
six-zone run is the entry list plus that zone's private block. -/
theorem offsetsChecks_shape_witness :
    ∃ jv pub, calculateSubnet (parseCIDR4 10 0 0 0 16) 6 jv =
        Except.ok pub ∧
      ([parseCIDR4 10 0 0 0 19, parseCIDR4 10 0 32 0 19] = [] ++ [pub] ∨
        ∃ t pv, calculateSubnet (parseCIDR4 10 0 0 0 16) 6 (jv + t + 1) =
            Except.ok pv ∧
          [parseCIDR4 10 0 0 0 19, parseCIDR4 10 0 32 0 19] =
            [] ++ [pub, pv]) :=
  offsetsChecks_shape [] (parseCIDR4 10 0 0 0 16) 6
    ["us-east-1a", "us-east-1b", "us-east-1c",
     "us-east-1d", "us-east-1e", "us-east-1f"] 0 50
    [parseCIDR4 10 0 0 0 19, parseCIDR4 10 0 32 0 19] (by decide)

set_option maxHeartbeats 4000000 in
/-- C6 counterexample: with root 10.0.0.0/20 entirely covered by an existing
reservation and one zone, 128 expansion-factor iterations run without the
search returning — the expansion index reaches 128, beyond a fixed ceiling
on the order of 100 — and the run then returns on the very next iteration
with the `AllocationExhausted` error. -/
theorem fromZonesGo_outer_exceeds_bound :
    fromZonesGo [parseCIDR4 10 0 0 0 20] (parseCIDR4 10 0 0 0 20) 1 ["a"]
      128 0 = none ∧
    fromZonesGo [parseCIDR4 10 0 0 0 20] (parseCIDR4 10 0 0 0 20) 1 ["a"]
      129 0 = some (Except.error GoErr.invalidNetwork) :=
  ⟨by decide, by decide⟩

end Subnet
